import Mathlib

/-!
Shallow embedding of the DKG committee state machine from `src/dkg/committee.rs`
(danielSanchezQ/dkg), together with the correct-hybrid-decryption-key proof from
`src/cryptography/correct_hybrid_decryption_key/zkp.rs`.

Modelling conventions:
* The prime-order group `G`, the scalar ring `S`, hybrid ciphertexts `C`,
  communication public keys `PK`, secret keys `SK` and misbehaviour proofs `Pf`
  are abstract type parameters; the group / scalar operations, the generator,
  hybrid encryption and decryption, and `ProofOfMisbehaviour::generate` are
  supplied as a record of functions `Ops` (the Rust code is generic over a
  `PrimeGroupElement` trait, and rng-dependent operations become deterministic
  parameters once the sampled randomness is fixed).
* Rust `usize` arithmetic is modelled with `Nat` plus explicit panic tracking:
  a transition returns `Option _`, where `none` models a Rust panic
  (assertion failure, arithmetic underflow of `x - 1` at `x = 0`, or
  out-of-bounds slice indexing).
* `Result<T, DkgError>` becomes `Except DkgError T`; Rust's
  `(Result<..>, Option<Broadcast>)` tuples become Lean pairs.
-/

/-- Error enumeration. Modelled from the spec: `src/errors.rs` is not under
`src/`; the spec's §7 error taxonomy lists exactly these protocol error kinds,
and `committee.rs` uses the first five constructors. -/
inductive DkgError : Type where
  | ShareValidityFailed : DkgError
  | ScalarOutOfBounds : DkgError
  | FetchedInvalidData : DkgError
  | MisbehaviourHigherThreshold : DkgError
  | InvalidProof : DkgError
  | InconsistentMasterKey : DkgError
deriving DecidableEq, Repr

/-- The group/scalar/encryption operations the generic Rust code consumes.
`gsmul p s` is the Rust `p * s` (group element times scalar, `g^s` in
multiplicative notation), `gadd` the group operation, `gen` the fixed
generator `G::generator()`.  `hybridEnc pk m` models
`pk.hybrid_encrypt(&m.to_bytes(), rng)` with the encryption randomness fixed;
`dec sk c` models `from_bytes(sk.hybrid_decrypt(c))`, returning `none` when
the AEAD rejects or the bytes are a non-canonical scalar; `proofGen sk shares`
models `ProofOfMisbehaviour::generate(&shares, &sk, rng)` with its randomness
fixed. -/
structure Ops (S G C PK SK Pf : Type) where
  sadd : S → S → S
  smul : S → S → S
  sone : S
  ofNat : Nat → S
  gadd : G → G → G
  gsmul : G → S → G
  gen : G
  gzero : G
  hybridEnc : PK → S → C
  dec : SK → C → Option S
  proofGen : SK → Nat × C × C → Pf

variable {S G C PK SK Pf : Type}

/-- Modelled from the spec: `src/polynomial.rs` is not under `src/`.  Horner
evaluation of the polynomial whose coefficient list is `[a₀, a₁, …, a_t]`
(spec §4.1: "Evaluation uses Horner's rule"). -/
def polyEval (o : Ops S G C PK SK Pf) : List S → S → S
  | [], _ => o.ofNat 0
  | a :: rest, x => o.sadd a (o.smul x (polyEval o rest x))

/-- `x^k` in the scalar ring, via repeated `smul`. -/
def spow (o : Ops S G C PK SK Pf) (x : S) : Nat → S
  | 0 => o.sone
  | k + 1 => o.smul x (spow o x k)

/-- The list `[1, x, x², …, x^(n-1)]`: the Rust
`x.exp_iter().take(n)` (`traits.rs`, `ScalarExp`). -/
def expIterTake (o : Ops S G C PK SK Pf) (x : S) (n : Nat) : List S :=
  (List.range n).map (spow o x)

/-- `G::vartime_multiscalar_multiplication(scalars, points)`: the sum
`Σ scalarᵢ · pointᵢ` over the zipped iterators (the trait leaves the
combination abstract; we model the standard zip-and-sum semantics). -/
def msm (o : Ops S G C PK SK Pf) (scalars : List S) (points : List G) : G :=
  ((scalars.zip points).map (fun p => o.gsmul p.2 p.1)).foldl o.gadd o.gzero

/-- `Environment` (committee.rs lines 24-29): threshold `t`, number of members
`n`, and the commitment key (whose only datum used by the driver is `h`;
`g` is the fixed group generator). -/
structure Environment (G : Type) where
  threshold : Nat
  nr_members : Nat
  ck_h : G
deriving DecidableEq, Repr

/-- `Environment::init` (committee.rs lines 64-73).  `none` models a panic of
one of the two `assert!`s: `threshold <= nr_members` and
`threshold > nr_members / 2` (integer division). -/
def Environment.init (threshold nr_members : Nat) (ck_h : G) :
    Option (Environment G) :=
  if threshold ≤ nr_members ∧ nr_members / 2 < threshold then
    some ⟨threshold, nr_members, ck_h⟩
  else none

/-- `IndividualState` (committee.rs lines 32-43). `indexed_received_shares`
stores, per sender slot, the decrypted `(comm, shek)` scalars together with
the sender's committed coefficients. -/
structure IndividualState (S G PK SK : Type) where
  index : Nat
  environment : Environment G
  communication_sk : SK
  committed_coefficients : List G
  final_share : Option S
  public_share : Option G
  indexed_received_shares : Option (List (Option (S × S × List G)))
  indexed_committed_shares : Option (List (Option (Nat × List G)))
  qualified_set : List Nat
deriving DecidableEq

/-- `BroadcastPhase1`: committed coefficients `Eᵢ` and the encrypted shares,
each entry `(recipient_idx, c_comm, c_shek)`. -/
structure BroadcastPhase1 (G C : Type) where
  committed_coefficients : List G
  encrypted_shares : List (Nat × C × C)
deriving DecidableEq

/-- `BroadcastPhase2`: the list of complaints
`(accused_idx, reason, proof)`. -/
structure BroadcastPhase2 (Pf : Type) where
  misbehaving_parties : List (Nat × DkgError × Pf)
deriving DecidableEq

/-- `BroadcastPhase3`: the plain committed coefficients `Aᵢ`. -/
structure BroadcastPhase3 (G : Type) where
  committed_coefficients : List G
deriving DecidableEq

/-- `BroadcastPhase4`: disclosed shares `(accused_idx, comm, shek)` of
senders whose round-3 commitments contradict their round-1 shares. -/
structure BroadcastPhase4 (S : Type) where
  misbehaving_parties : List (Nat × S × S)
deriving DecidableEq

/-- `MembersFetchedState1` (committee.rs lines 360-364): a round-1 broadcast
as routed to this member; `indexed_shares = (recipient_idx, c_comm, c_shek)`. -/
structure MembersFetchedState1 (G C : Type) where
  sender_index : Nat
  indexed_shares : Nat × C × C
  committed_coeffs : List G
deriving DecidableEq

/-- `MembersFetchedState3` (committee.rs lines 372-376). -/
structure MembersFetchedState3 (G : Type) where
  sender_index : Nat
  committed_coefficients : List G
deriving DecidableEq

/-- `Phase::<G, Initialise>::init` (committee.rs lines 91-159), with the two
sampled polynomials `pcomm`/`pshek` (their coefficient lists) passed in for
the rng.  `none` models a panic: the `assert_eq!(committee_pks.len(), n)`,
the `assert!(my <= n)`, or the `usize` underflow of `my - 1` evaluated in the
first loop iteration when `my = 0` and the loop body runs (`n > 0`).
Returns the `Phase1` state and `BroadcastPhase1`. -/
def dkgInit (o : Ops S G C PK SK Pf) (environment : Environment G)
    (secret_key : SK) (committee_pks : List PK) (pcomm pshek : List S)
    (my : Nat) : Option (IndividualState S G PK SK × BroadcastPhase1 G C) :=
  if committee_pks.length ≠ environment.nr_members then none
  else if ¬ my ≤ environment.nr_members then none
  else if 0 < environment.nr_members ∧ my = 0 then none
  else
    some
      ({ index := my
         environment := environment
         communication_sk := secret_key
         -- `apubs`: the `Aᵢ = g^{aᵢ}` kept in state
         committed_coefficients :=
           (pshek.zip pcomm).map (fun ab => o.gsmul o.gen ab.1)
         final_share := none
         public_share := none
         indexed_received_shares := none
         indexed_committed_shares := none
         qualified_set := List.replicate environment.nr_members 1 },
       { -- `coeff_comms`: the broadcast `Eᵢ = h^{bᵢ} · g^{aᵢ}`
         committed_coefficients :=
           (pshek.zip pcomm).map
             (fun ab => o.gadd (o.gsmul environment.ck_h ab.2) (o.gsmul o.gen ab.1))
         encrypted_shares :=
           (List.range environment.nr_members).filterMap (fun i =>
             if i = my - 1 then none
             else
               match committee_pks.get? i with
               | some pk =>
                   some (i + 1,
                     o.hybridEnc pk (polyEval o pcomm (o.ofNat (i + 1))),
                     o.hybridEnc pk (polyEval o pshek (o.ofNat (i + 1))))
               | none => none) })

/-- Accumulator of the `to_phase_2` loop (committee.rs lines 177-179):
the cloned qualified set, the complaints collected so far, and the
`decrypted_shares` slot vector. -/
structure Phase2Acc (S G Pf : Type) where
  qs : List Nat
  mis : List (Nat × DkgError × Pf)
  ds : List (Option (S × S × List G))
deriving DecidableEq

/-- One iteration of the `to_phase_2` loop body (committee.rs lines 180-234)
on a single fetched item.  Result: `none` = panic (underflow of
`sender_index - 1` at `0`, or out-of-bounds indexing of `decrypted_shares` /
`qualified_set`); `some (.error e)` = the early
`return (Err(FetchedInvalidData), None)`; `some (.ok acc)` = loop continues. -/
def phase2Step [DecidableEq G] (o : Ops S G C PK SK Pf)
    (environment : Environment G) (myIndex : Nat) (sk : SK)
    (acc : Phase2Acc S G Pf) (fd : MembersFetchedState1 G C) :
    Option (Except DkgError (Phase2Acc S G Pf)) :=
  if fd.indexed_shares.1 ≠ myIndex then
    some (.error .FetchedInvalidData)
  else
    match o.dec sk fd.indexed_shares.2.1, o.dec sk fd.indexed_shares.2.2 with
    | some comm, some shek =>
        -- `check_element = h^comm · g^shek`; `multi_scalar = Σ_k my^k · E_k`;
        -- the positive index guards model the `sender_index - 1` underflow /
        -- out-of-bounds panics of the slice assignments
        if fd.sender_index ≠ 0 ∧ fd.sender_index - 1 < acc.ds.length then
          if o.gadd (o.gsmul environment.ck_h comm) (o.gsmul o.gen shek) ≠
              msm o (expIterTake o (o.ofNat myIndex) (environment.threshold + 1))
                fd.committed_coeffs then
            if fd.sender_index - 1 < acc.qs.length then
              some (.ok
                { qs := acc.qs.set (fd.sender_index - 1) 0
                  mis := acc.mis ++
                    [(fd.sender_index, DkgError.ShareValidityFailed,
                      o.proofGen sk fd.indexed_shares)]
                  ds := acc.ds.set (fd.sender_index - 1)
                    (some (comm, shek, fd.committed_coeffs)) })
            else none
          else
            some (.ok { acc with
              ds := acc.ds.set (fd.sender_index - 1)
                (some (comm, shek, fd.committed_coeffs)) })
        else none
    | _, _ =>
        if fd.sender_index ≠ 0 ∧ fd.sender_index - 1 < acc.qs.length then
          some (.ok
            { acc with
              qs := acc.qs.set (fd.sender_index - 1) 0
              mis := acc.mis ++
                [(fd.sender_index, DkgError.ScalarOutOfBounds,
                  o.proofGen sk fd.indexed_shares)] })
        else none

/-- The `for fetched_data in members_state` loop of `to_phase_2`
(committee.rs lines 180-234), threading the accumulator and propagating
panics and the early `FetchedInvalidData` return. -/
def phase2Loop [DecidableEq G] (o : Ops S G C PK SK Pf)
    (environment : Environment G) (myIndex : Nat) (sk : SK) :
    List (MembersFetchedState1 G C) → Phase2Acc S G Pf →
    Option (Except DkgError (Phase2Acc S G Pf))
  | [], acc => some (.ok acc)
  | fd :: rest, acc =>
      match phase2Step o environment myIndex sk acc fd with
      | none => none
      | some (.error e) => some (.error e)
      | some (.ok acc') => phase2Loop o environment myIndex sk rest acc'

/-- `Phase::<G, Phase1>::to_phase_2` (committee.rs lines 165-263).  `none`
models a panic; otherwise the pair `(Result, Option<BroadcastPhase2>)`. -/
def toPhase2 [DecidableEq G] (o : Ops S G C PK SK Pf)
    (st : IndividualState S G PK SK) (environment : Environment G)
    (members_state : List (MembersFetchedState1 G C)) :
    Option (Except DkgError (IndividualState S G PK SK) × Option (BroadcastPhase2 Pf)) :=
  let acc0 : Phase2Acc S G Pf :=
    { qs := st.qualified_set
      mis := []
      ds := List.replicate st.environment.nr_members none }
  match phase2Loop o environment st.index st.communication_sk members_state acc0 with
  | none => none
  | some (.error e) => some (.error e, none)
  | some (.ok acc) =>
      if environment.threshold ≤ acc.mis.length then
        some (.error .MisbehaviourHigherThreshold,
          some { misbehaving_parties := acc.mis })
      else
        some (.ok
          { st with
            indexed_received_shares := some acc.ds
            qualified_set := acc.qs },
          if acc.mis.isEmpty then none
          else some { misbehaving_parties := acc.mis })

/-- One `qualified_set[accused-1] &= 0` update of `compute_qualified_set`
(committee.rs line 270); `none` models the panic on `accused = 0`
(underflow) or `accused - 1` out of bounds. -/
def cqsStep (acc : Option (List Nat)) (m : Nat × DkgError × Pf) :
    Option (List Nat) :=
  match acc with
  | none => none
  | some l =>
      if m.1 ≠ 0 ∧ m.1 - 1 < l.length then
        some (l.set (m.1 - 1) ((l.getD (m.1 - 1) 0).land 0))
      else none

/-- `Phase::<G, Phase2>::compute_qualified_set` (committee.rs lines 267-273):
for every complaint tuple in every broadcast, `qualified_set[accused-1] &= 0`,
with no verification of the complaint's proof. -/
def computeQualifiedSet (qs : List Nat)
    (broadcast_complaints : List (BroadcastPhase2 Pf)) : Option (List Nat) :=
  broadcast_complaints.foldl
    (fun acc b => b.misbehaving_parties.foldl cqsStep acc)
    (some qs)

/-- `Phase::<G, Phase2>::to_phase_3` (committee.rs lines 275-298).  Note the
guard compares `qualified_set.len()` — the *length* of the vector — with the
threshold, exactly as the source does. -/
def toPhase3 (st : IndividualState S G PK SK)
    (broadcast_complaints : List (BroadcastPhase2 Pf)) :
    Option (Except DkgError (IndividualState S G PK SK) × Option (BroadcastPhase3 G)) :=
  match computeQualifiedSet st.qualified_set broadcast_complaints with
  | none => none
  | some qs =>
      if ({ st with qualified_set := qs } :
          IndividualState S G PK SK).qualified_set.length <
          st.environment.threshold then
        some (.error .MisbehaviourHigherThreshold, none)
      else
        some (.ok { st with qualified_set := qs },
          some { committed_coefficients :=
            ({ st with qualified_set := qs } :
              IndividualState S G PK SK).committed_coefficients })

/-- Accumulator of the `to_phase_4` loop: the `honest` bitmap and the
disclosed misbehaving parties. -/
structure Phase4Acc (S : Type) where
  honest : List Nat
  mis : List (Nat × S × S)
deriving DecidableEq

/-- One iteration of the `to_phase_4` loop body (committee.rs lines 314-337).
`none` models a panic: `sender_index - 1` underflow / out-of-bounds on
`qualified_set`, or the `.expect` on a missing received share. -/
def phase4Step [DecidableEq G] (o : Ops S G C PK SK Pf)
    (st : IndividualState S G PK SK)
    (received_shares : List (Option (S × S × List G)))
    (acc : Phase4Acc S) (fc : MembersFetchedState3 G) : Option (Phase4Acc S) :=
  if fc.sender_index ≠ 0 ∧ fc.sender_index - 1 < st.qualified_set.length then
    if st.qualified_set.getD (fc.sender_index - 1) 0 ≠ 0 then
      if fc.sender_index - 1 < received_shares.length then
        match received_shares.getD (fc.sender_index - 1) none with
        | none => none   -- .expect("If it is part of honest members, ...")
        | some indexed_shares =>
            if o.gsmul o.gen indexed_shares.2.1 ≠
                msm o (expIterTake o (o.ofNat st.index) (st.environment.threshold + 1))
                  fc.committed_coefficients then
              some { acc with
                     mis := acc.mis ++
                       [(fc.sender_index, indexed_shares.1, indexed_shares.2.1)] }
            else
              if fc.sender_index - 1 < acc.honest.length then
                some { acc with
                       honest := acc.honest.set (fc.sender_index - 1)
                         ((acc.honest.getD (fc.sender_index - 1) 0).lor 1) }
              else none
      else none
    else
      some acc
  else none

/-- The `for fetched_commitments in fetched_state_3` loop of `to_phase_4`. -/
def phase4Loop [DecidableEq G] (o : Ops S G C PK SK Pf)
    (st : IndividualState S G PK SK)
    (received_shares : List (Option (S × S × List G))) :
    List (MembersFetchedState3 G) → Phase4Acc S → Option (Phase4Acc S)
  | [], acc => some acc
  | fc :: rest, acc =>
      match phase4Step o st received_shares acc fc with
      | none => none
      | some acc' => phase4Loop o st received_shares rest acc'

/-- `Phase::<G, Phase3>::to_phase_4` (committee.rs lines 302-353).  `none`
models a panic: the `.expect` on absent `indexed_received_shares`, the
`honest[my-1]` indexing, or a loop-body panic. -/
def toPhase4 [DecidableEq G] (o : Ops S G C PK SK Pf)
    (st : IndividualState S G PK SK)
    (fetched_state_3 : List (MembersFetchedState3 G)) :
    Option (Except DkgError (IndividualState S G PK SK) × Option (BroadcastPhase4 S)) :=
  if st.index ≠ 0 ∧
      st.index - 1 < (List.replicate st.environment.nr_members (0 : Nat)).length then
    match st.indexed_received_shares with
    | none => none   -- .expect("We shouldn't be here if we have not received shares")
    | some received_shares =>
        match phase4Loop o st received_shares fetched_state_3
            { honest := (List.replicate st.environment.nr_members 0).set (st.index - 1)
                (((List.replicate st.environment.nr_members (0 : Nat)).getD
                  (st.index - 1) 0).lor 1)
              mis := [] } with
        | none => none
        | some acc =>
            if acc.honest.sum < st.environment.threshold then
              some (.error .MisbehaviourHigherThreshold,
                if acc.mis.isEmpty then none
                else some { misbehaving_parties := acc.mis })
            else
              some (.ok st,
                if acc.mis.isEmpty then none
                else some { misbehaving_parties := acc.mis })
  else none

/-- The DLEQ proof triple `(announcement₁, announcement₂, response)`
(spec §3 `DleqZkp`). -/
structure DleqZkp (S G : Type) where
  announcement1 : G
  announcement2 : G
  response : S
deriving DecidableEq

/-- Modelled from the spec: `src/cryptography/dl_equality.rs` is not under
`src/`.  Spec §4.2: the prover samples `k`, sets `T₁ = base₁^k`,
`T₂ = base₂^k`, challenge `c = H(base₁‖base₂‖A‖B‖T₁‖T₂)`, response
`z = k + c·w`.  The Fiat–Shamir hash `H` and the sampled `k` are
parameters. -/
def DleqZkp.generate (o : Ops S G C PK SK Pf)
    (hash : G → G → G → G → G → G → S)
    (base1 base2 A B : G) (w k : S) : DleqZkp S G :=
  let t1 := o.gsmul base1 k
  let t2 := o.gsmul base2 k
  let c := hash base1 base2 A B t1 t2
  { announcement1 := t1
    announcement2 := t2
    response := o.sadd k (o.smul c w) }

/-- Modelled from the spec: spec §4.2, the verifier recomputes `c` and checks
`base₁^z == T₁ + c·A` and `base₂^z == T₂ + c·B` (additive notation);
`true` = `Ok(())`, `false` = `Err(InvalidProof)`. -/
def DleqZkp.verify [DecidableEq G] (o : Ops S G C PK SK Pf)
    (hash : G → G → G → G → G → G → S)
    (base1 base2 A B : G) (proof : DleqZkp S G) : Bool :=
  let c := hash base1 base2 A B proof.announcement1 proof.announcement2
  decide (o.gsmul base1 proof.response =
            o.gadd proof.announcement1 (o.gsmul A c)) &&
  decide (o.gsmul base2 proof.response =
            o.gadd proof.announcement2 (o.gsmul B c))

/-- `HybridCiphertext` (spec §3): ElGamal header `e1 = C1 = g^r` and the
AEAD payload `e2` (abstract). -/
structure HybridCiphertext (G P : Type) where
  e1 : G
  e2 : P
deriving DecidableEq

/-- The correct-hybrid-decryption-key proof
(`correct_hybrid_decryption_key/zkp.rs`, lines 19-22): a wrapper around a
DLEQ proof. -/
structure CorrectHybridDecrZkp (S G : Type) where
  hybrid_dec_key_proof : DleqZkp S G
deriving DecidableEq

/-- `Zkp::generate` (zkp.rs lines 29-50): delegates to `DleqZkp::generate`
with `base₁ = G::generator()`, `base₂ = c.e1`, `A = pk.0.pk`,
`B = symmetric_key.group_repr`, witness `sk.0.sk`.  `pk`, `symmetric_key`
and `sk` are passed as their underlying group element / scalar. -/
def CorrectHybridDecrZkp.generate {P : Type} (o : Ops S G C PK SK Pf)
    (hash : G → G → G → G → G → G → S)
    (c : HybridCiphertext G P) (pk : G) (symmetric_key : G) (sk : S)
    (k : S) : CorrectHybridDecrZkp S G :=
  { hybrid_dec_key_proof :=
      DleqZkp.generate o hash o.gen c.e1 pk symmetric_key sk k }

/-- `Zkp::verify` (zkp.rs lines 52-65): delegates to `DleqZkp::verify` on
`(G::generator(), c.e1, pk.0.pk, symmetric_key.group_repr)`. -/
def CorrectHybridDecrZkp.verify {P : Type} [DecidableEq G]
    (o : Ops S G C PK SK Pf) (hash : G → G → G → G → G → G → S)
    (proof : CorrectHybridDecrZkp S G) (c : HybridCiphertext G P)
    (symmetric_key : G) (pk : G) : Bool :=
  DleqZkp.verify o hash o.gen c.e1 pk symmetric_key proof.hybrid_dec_key_proof

/-- A small concrete instantiation used by witnesses and counterexamples:
every abstract type is `Int`; the "group" is the integers under addition with
generator `1`, `gsmul` is integer multiplication, hybrid encryption of a
scalar under key `pk` is `2 * s + pk`, and decryption recovers `s` from
non-negative even-offset ciphertexts and fails otherwise (modelling AEAD /
canonicity rejection). -/
def intOps : Ops Int Int Int Int Int Int :=
  { sadd := (· + ·)
    smul := (· * ·)
    sone := 1
    ofNat := fun n => (n : Int)
    gadd := (· + ·)
    gsmul := fun g s => g * s
    gen := 1
    gzero := 0
    hybridEnc := fun pk s => 2 * s + pk
    dec := fun _ c => if 0 ≤ c then some c else none
    proofGen := fun sk sh => sk + sh.2.1 + sh.2.2 }

/-! ### Shared concrete fixtures (over the `intOps` instantiation) -/

/-- A concrete environment: threshold 2, three members, commitment key `h = 3`. -/
def envEx : Environment Int := ⟨2, 3, 3⟩

/-- A concrete `Phase1`/`Phase2` state for member 1 of `envEx`. -/
def stEx : IndividualState Int Int Int Int :=
  { index := 1
    environment := envEx
    communication_sk := 0
    committed_coefficients := [10, 11, 12]
    final_share := none
    public_share := none
    indexed_received_shares := none
    indexed_committed_shares := none
    qualified_set := [1, 1, 1] }

/-- A fetched round-1 item from sender 2 whose decrypted scalars `(1, 2)`
satisfy the Pedersen check (`3·1 + 1·2 = 5 = Σ my^k·E_k` for `E = [5,0,0]`,
`my = 1`). -/
def goodItem : MembersFetchedState1 Int Int :=
  { sender_index := 2, indexed_shares := (1, 1, 2), committed_coeffs := [5, 0, 0] }

/-- A fetched round-1 item from sender 3: decryption succeeds with `(1, 2)`
but the Pedersen check fails against `E = [0,0,0]` (`5 ≠ 0`). -/
def badItem : MembersFetchedState1 Int Int :=
  { sender_index := 3, indexed_shares := (1, 1, 2), committed_coeffs := [0, 0, 0] }

/-- `n &&& 0 = 0`: the effect of the `&= 0` update. -/
lemma land_zero_nat (n : Nat) : n.land 0 = 0 := by simp [Nat.land]

/-! ### C1 -/

/-- C1: code bug.  The claim says a Phase2→Phase3 complaint may clear
`qualified_set[accused-1]` only after its proof verifies against the
accused's Broadcast1, and that a complaint with a failing proof is
discarded.  `compute_qualified_set` (committee.rs lines 267-273) never
verifies anything: it takes no Broadcast1 and no verifier, and for *every*
proof value `p` — in particular any proof that fails verification — the
complaint `(3, ShareValidityFailed, p)` unconditionally clears slot 3. -/
theorem c1_complaint_clears_slot_without_any_verification : ∀ p : Int,
    computeQualifiedSet [1, 1, 1]
      [{ misbehaving_parties := [(3, DkgError.ShareValidityFailed, p)] }] =
      some [1, 1, 0] := by
  intro p
  simp only [computeQualifiedSet, List.foldl, cqsStep, land_zero_nat]
  norm_num

/-! ### C2 -/

/-- C2: code bug.  The claim says `to_phase_3` errors iff the number of
members still marked `1` is below the threshold.  The source compares
`qualified_set.len()` (always `n`) with the threshold (committee.rs line
283).  Concretely: all three members get disqualified, zero entries are `1`
(`0 < t = 2`), yet the transition returns `Ok` with the Broadcast3. -/
theorem c2_phase3_succeeds_with_zero_qualified_members :
    toPhase3 stEx
        [{ misbehaving_parties :=
            [(1, DkgError.ShareValidityFailed, (0 : Int)),
             (2, DkgError.ShareValidityFailed, 0),
             (3, DkgError.ShareValidityFailed, 0)] }] =
      some (.ok { stEx with qualified_set := [0, 0, 0] },
            some { committed_coefficients := [10, 11, 12] }) ∧
    List.count 1 [0, 0, 0] < stEx.environment.threshold :=
  ⟨rfl, by decide⟩

/-! ### C3 -/

/-- C3: counterexample.  The claim says the decrypted `(s, t)` scalars are
recorded at slot `i-1` *if and only if* the Pedersen check holds, and that
exactly one of {record, complain} happens per sender.  For `badItem`
(sender 3) the check fails — `h·t + g·s = 3·1 + 1·2 = 5` differs from the
multiscalar combination `0` — yet the run below *both* records
`(1, 2, [0,0,0])` at slot 2 *and* records the complaint and disqualifies
sender 3: committee.rs line 201 stores the decrypted shares before the
check at line 207. -/
theorem c3_counterexample_records_and_complains :
    toPhase2 intOps stEx envEx [badItem] =
      some (.ok { stEx with
                  indexed_received_shares :=
                    some [none, none, some (1, 2, [0, 0, 0])]
                  qualified_set := [1, 1, 0] },
            some { misbehaving_parties := [(3, DkgError.ShareValidityFailed, 3)] }) ∧
    intOps.gadd (intOps.gsmul envEx.ck_h 1) (intOps.gsmul intOps.gen 2) ≠
      msm intOps (expIterTake intOps (intOps.ofNat stEx.index) (envEx.threshold + 1))
        badItem.committed_coeffs :=
  ⟨rfl, by decide⟩

/-! ### C8 -/

/-- C8: the correct-decryption proof is exactly the DLEQ proof at the stated
instantiation.  `Zkp::generate c pk K sk` equals `DleqZkp::generate` on
`(base₁ = g, base₂ = c.e1, A = pk, B = K, witness = sk)` (zkp.rs lines
39-46), and `Zkp::verify` accepts exactly when `DleqZkp::verify` accepts on
`(g, c.e1, pk, K)` (zkp.rs lines 59-64). -/
theorem c8_zkp_is_dleq_at_stated_instantiation :
    ∀ {P : Type} (o : Ops S G C PK SK Pf) [DecidableEq G]
      (hash : G → G → G → G → G → G → S) (c : HybridCiphertext G P)
      (pk symmetric_key : G) (sk k : S) (proof : CorrectHybridDecrZkp S G),
      CorrectHybridDecrZkp.generate o hash c pk symmetric_key sk k =
        { hybrid_dec_key_proof :=
            DleqZkp.generate o hash o.gen c.e1 pk symmetric_key sk k } ∧
      (CorrectHybridDecrZkp.verify o hash proof c symmetric_key pk = true ↔
        DleqZkp.verify o hash o.gen c.e1 pk symmetric_key
          proof.hybrid_dec_key_proof = true) := by
  intro P o inst hash c pk symmetric_key sk k proof
  exact ⟨rfl, Iff.rfl⟩

/-! ### C9 -/

/-- C9: the constructors abort exactly on programmer-contract violations.
`Environment::init` panics iff `t > n` or `t ≤ n/2` (integer division,
committee.rs lines 65-66); and — for any environment satisfying
`Environment::init`'s contract — `Phase::init` panics iff
`|committee_pks| ≠ n` or the 1-indexed precondition `1 ≤ my ≤ n` fails
(the `assert_eq!`/`assert!` at lines 98-99 plus the `my - 1` underflow at
line 119 when `my = 0`); no other input panics. -/
theorem c9_constructors_panic_exactly_on_contract_violation :
    (∀ (t n : Nat) (ck : G), Environment.init t n ck = none ↔
        (n < t ∨ t ≤ n / 2)) ∧
    (∀ (o : Ops S G C PK SK Pf) (env : Environment G) (sk : SK)
       (pks : List PK) (pcomm pshek : List S) (my : Nat),
       env.threshold ≤ env.nr_members →
       env.nr_members / 2 < env.threshold →
       (dkgInit o env sk pks pcomm pshek my = none ↔
         (pks.length ≠ env.nr_members ∨ my = 0 ∨ env.nr_members < my))) := by
  constructor
  · intro t n ck
    by_cases h : t ≤ n ∧ n / 2 < t
    · simp only [Environment.init, if_pos h]
      simp only [reduceCtorEq, false_iff]
      omega
    · simp only [Environment.init, if_neg h]
      simp only [true_iff]
      omega
  · intro o env sk pks pcomm pshek my ht hn2
    have hn : 0 < env.nr_members := by omega
    simp only [dkgInit]
    by_cases h1 : pks.length = env.nr_members
    · by_cases h2 : my ≤ env.nr_members
      · by_cases h3 : my = 0
        · simp only [h1, h3]
          simp [hn, h2]
        · simp only [h1]
          simp [h2, h3]
          try omega
      · simp only [h1]
        simp [h2]
        try omega
    · simp [h1]

/-- Witness for C9: concrete applications of both parts.
`Environment::init 2 1` panics (`2 > 1`); `Phase::init` with a valid
`(t, n) = (2, 3)` environment and `my = 0` panics. -/
theorem c9_witness :
    Environment.init 2 1 (0 : Int) = none ∧
    dkgInit intOps ⟨2, 3, 3⟩ (0 : Int) ([0, 0, 0] : List Int)
      [1, 2, 3] [4, 5, 6] 0 = none := by
  constructor
  · exact ((@c9_constructors_panic_exactly_on_contract_violation
      Int Int Int Int Int Int).1 2 1 0).mpr (by decide)
  · exact ((@c9_constructors_panic_exactly_on_contract_violation
      Int Int Int Int Int Int).2 intOps
      ⟨2, 3, 3⟩ 0 [0, 0, 0] [1, 2, 3] [4, 5, 6] 0 (by decide) (by decide)).mpr
      (by decide)


/-! ### Phase-2 loop lemmas (shared) -/

/-- Clearing a slot never turns a `0` entry into something else. -/
lemma get?_set_zero_of_get?_zero (l : List Nat) (k j : Nat)
    (h : l.get? j = some 0) : (l.set k 0).get? j = some 0 := by
  rcases eq_or_ne k j with rfl | hne
  · have hlt : k < l.length := by
      by_contra hn
      rw [List.get?_eq_none.2 (le_of_not_lt hn)] at h
      cases h
    rw [List.get?_set_eq_of_lt _ hlt]
  · rw [List.get?_set_ne _ _ hne]
    exact h

/-- A successful loop-body step preserves the lengths of the accumulator's
vectors and never sets a cleared `qualified_set` entry back. -/
lemma phase2Step_ok_inv [DecidableEq G] (o : Ops S G C PK SK Pf)
    (env : Environment G) (my : Nat) (sk : SK) (acc acc' : Phase2Acc S G Pf)
    (fd : MembersFetchedState1 G C)
    (h : phase2Step o env my sk acc fd = some (.ok acc')) :
    acc'.ds.length = acc.ds.length ∧ acc'.qs.length = acc.qs.length ∧
    (∀ j, acc.qs.get? j = some 0 → acc'.qs.get? j = some 0) := by
  unfold phase2Step at h
  repeat' split at h
  all_goals
    first
      | (injection h with h
         injection h with h
         subst h
         exact ⟨by simp, by simp, fun j hj =>
           get?_set_zero_of_get?_zero _ _ _ hj⟩)
      | (injection h with h
         injection h with h
         subst h
         exact ⟨by simp, by simp, fun j hj => hj⟩)
      | cases h

/-- A step on an item addressed to `my` from an in-range sender succeeds. -/
lemma phase2Step_ok_of_inrange [DecidableEq G] (o : Ops S G C PK SK Pf)
    (env : Environment G) (my : Nat) (sk : SK) (acc : Phase2Acc S G Pf)
    (fd : MembersFetchedState1 G C)
    (hrec : fd.indexed_shares.1 = my) (h0 : fd.sender_index ≠ 0)
    (hds : fd.sender_index - 1 < acc.ds.length)
    (hqs : fd.sender_index - 1 < acc.qs.length) :
    ∃ acc', phase2Step o env my sk acc fd = some (.ok acc') := by
  unfold phase2Step
  rw [if_neg (fun hne => hne hrec)]
  repeat' split
  all_goals
    first
      | exact ⟨_, rfl⟩
      | (exfalso
         omega)

/-- A step on an item addressed to `my` whose sender index is `0` or exceeds
both vector lengths panics. -/
lemma phase2Step_none_of_outrange [DecidableEq G] (o : Ops S G C PK SK Pf)
    (env : Environment G) (my : Nat) (sk : SK) (acc : Phase2Acc S G Pf)
    (fd : MembersFetchedState1 G C)
    (hrec : fd.indexed_shares.1 = my)
    (hbad : fd.sender_index = 0 ∨
      (acc.ds.length < fd.sender_index ∧ acc.qs.length < fd.sender_index)) :
    phase2Step o env my sk acc fd = none := by
  unfold phase2Step
  rw [if_neg (fun hne => hne hrec)]
  repeat' split
  all_goals
    first
      | rfl
      | (exfalso
         omega)

/-- Loop lemma: on items all addressed to `my` with senders within the
vectors' range, the loop completes without panic or early return,
preserves the vector lengths and never un-clears a qualified-set entry. -/
lemma phase2Loop_ok [DecidableEq G] (o : Ops S G C PK SK Pf)
    (env : Environment G) (my : Nat) (sk : SK) :
    ∀ (items : List (MembersFetchedState1 G C)) (acc : Phase2Acc S G Pf),
    (∀ fd ∈ items, fd.indexed_shares.1 = my) →
    (∀ fd ∈ items, fd.sender_index ≠ 0 ∧
      fd.sender_index ≤ acc.ds.length ∧ fd.sender_index ≤ acc.qs.length) →
    ∃ acc', phase2Loop o env my sk items acc = some (.ok acc') ∧
      acc'.ds.length = acc.ds.length ∧ acc'.qs.length = acc.qs.length ∧
      (∀ j, acc.qs.get? j = some 0 → acc'.qs.get? j = some 0)
  | [], acc => by
      intro _ _
      exact ⟨acc, rfl, rfl, rfl, fun _ h => h⟩
  | fd :: rest, acc => by
      intro hrec hb
      obtain ⟨h0, hds, hqs⟩ := hb fd (List.mem_cons_self fd rest)
      obtain ⟨acc1, hstep⟩ :=
        phase2Step_ok_of_inrange o env my sk acc fd
          (hrec fd (List.mem_cons_self fd rest)) h0 (by omega) (by omega)
      obtain ⟨hd1, hq1, hmono1⟩ := phase2Step_ok_inv o env my sk acc acc1 fd hstep
      obtain ⟨acc', hloop, hd2, hq2, hmono2⟩ :=
        phase2Loop_ok o env my sk rest acc1
          (fun x hx => hrec x (List.mem_cons_of_mem fd hx))
          (fun x hx => by
            obtain ⟨a, b, c⟩ := hb x (List.mem_cons_of_mem fd hx)
            exact ⟨a, by omega, by omega⟩)
      refine ⟨acc', ?_, by omega, by omega, fun j hj => hmono2 j (hmono1 j hj)⟩
      unfold phase2Loop
      rw [hstep]
      exact hloop

/-- Loop lemma: if every item is addressed to `my` and some item's sender is
out of range, the loop panics. -/
lemma phase2Loop_none [DecidableEq G] (o : Ops S G C PK SK Pf)
    (env : Environment G) (my : Nat) (sk : SK) (n : Nat) :
    ∀ (items : List (MembersFetchedState1 G C)) (acc : Phase2Acc S G Pf),
    (∀ fd ∈ items, fd.indexed_shares.1 = my) →
    acc.ds.length = n → acc.qs.length = n →
    (∃ fd ∈ items, fd.sender_index = 0 ∨ n < fd.sender_index) →
    phase2Loop o env my sk items acc = none
  | [], _ => by
      intro _ _ _ hbad
      obtain ⟨fd, hmem, _⟩ := hbad
      cases hmem
  | fd :: rest, acc => by
      intro hrec hdn hqn hbad
      by_cases hfd : fd.sender_index = 0 ∨ n < fd.sender_index
      · have hnone : phase2Step o env my sk acc fd = none := by
          apply phase2Step_none_of_outrange o env my sk acc fd
            (hrec fd (List.mem_cons_self fd rest))
          rcases hfd with h | h
          · exact Or.inl h
          · exact Or.inr ⟨by omega, by omega⟩
        unfold phase2Loop
        rw [hnone]
      · push_neg at hfd
        obtain ⟨acc1, hstep⟩ :=
          phase2Step_ok_of_inrange o env my sk acc fd
            (hrec fd (List.mem_cons_self fd rest)) hfd.1 (by omega) (by omega)
        obtain ⟨hd1, hq1, _⟩ := phase2Step_ok_inv o env my sk acc acc1 fd hstep
        have hrest := phase2Loop_none o env my sk n rest acc1
          (fun x hx => hrec x (List.mem_cons_of_mem fd hx))
          (by omega) (by omega)
          (by
            obtain ⟨x, hx, hxbad⟩ := hbad
            rcases List.mem_cons.1 hx with rfl | hx'
            · exact absurd hxbad (by push_neg; exact hfd)
            · exact ⟨x, hx', hxbad⟩)
        unfold phase2Loop
        rw [hstep]
        exact hrest

/-- Unfolding `to_phase_2` once the loop result is known. -/
lemma toPhase2_eq_of_loop [DecidableEq G] (o : Ops S G C PK SK Pf)
    (st : IndividualState S G PK SK) (env : Environment G)
    (items : List (MembersFetchedState1 G C)) (acc : Phase2Acc S G Pf)
    (hloop : phase2Loop o env st.index st.communication_sk items
      { qs := st.qualified_set, mis := [],
        ds := List.replicate st.environment.nr_members none } = some (.ok acc)) :
    toPhase2 o st env items =
      if env.threshold ≤ acc.mis.length then
        some (.error .MisbehaviourHigherThreshold,
          some { misbehaving_parties := acc.mis })
      else
        some (.ok { st with indexed_received_shares := some acc.ds,
                            qualified_set := acc.qs },
          if acc.mis.isEmpty then none
          else some { misbehaving_parties := acc.mis }) := by
  simp only [toPhase2]
  rw [hloop]

/-- A successful `to_phase_2` loop never sets a cleared entry back. -/
lemma phase2Loop_ok_mono [DecidableEq G] (o : Ops S G C PK SK Pf)
    (env : Environment G) (my : Nat) (sk : SK) :
    ∀ (items : List (MembersFetchedState1 G C)) (acc acc' : Phase2Acc S G Pf),
    phase2Loop o env my sk items acc = some (.ok acc') →
    ∀ j, acc.qs.get? j = some 0 → acc'.qs.get? j = some 0
  | [], acc, acc' => by
      intro h j hj
      injection h with h
      injection h with h
      subst h
      exact hj
  | fd :: rest, acc, acc' => by
      intro h j hj
      unfold phase2Loop at h
      cases hstep : phase2Step o env my sk acc fd with
      | none => rw [hstep] at h; cases h
      | some r =>
          rw [hstep] at h
          cases r with
          | error e => cases h
          | ok acc1 =>
              obtain ⟨_, _, hmono⟩ :=
                phase2Step_ok_inv o env my sk acc acc1 fd hstep
              exact phase2Loop_ok_mono o env my sk rest acc1 acc' h j (hmono j hj)

/-- One `&= 0` update never sets a cleared entry back. -/
lemma cqsStep_mono {j : Nat} (m : Nat × DkgError × Pf) (a : Option (List Nat))
    (ha : ∀ l, a = some l → l.get? j = some 0) :
    ∀ l', cqsStep a m = some l' → l'.get? j = some 0 := by
  intro l' h
  cases a with
  | none =>
      simp only [cqsStep] at h
      cases h
  | some l =>
      simp only [cqsStep] at h
      split at h
      · injection h with h
        subst h
        rw [land_zero_nat]
        exact get?_set_zero_of_get?_zero _ _ _ (ha l rfl)
      · cases h

/-- Folding `&= 0` updates over one broadcast's complaints is monotone. -/
lemma cqs_innerfold_mono {j : Nat} :
    ∀ (ms : List (Nat × DkgError × Pf)) (a : Option (List Nat)),
    (∀ l, a = some l → l.get? j = some 0) →
    ∀ l', ms.foldl cqsStep a = some l' → l'.get? j = some 0
  | [], a => fun ha l' h => ha l' h
  | m :: ms, a => fun ha l' h =>
      cqs_innerfold_mono ms (cqsStep a m)
        (fun l hl => cqsStep_mono m a ha l hl) l' h

/-- `compute_qualified_set` is monotone: a cleared entry stays cleared. -/
lemma computeQualifiedSet_mono {j : Nat} :
    ∀ (bs : List (BroadcastPhase2 Pf)) (a : Option (List Nat)),
    (∀ l, a = some l → l.get? j = some 0) →
    ∀ qs', bs.foldl (fun acc b => b.misbehaving_parties.foldl cqsStep acc) a =
      some qs' → qs'.get? j = some 0
  | [], a => fun ha qs' h => ha qs' h
  | b :: bs, a => fun ha qs' h =>
      computeQualifiedSet_mono bs (b.misbehaving_parties.foldl cqsStep a)
        (fun l hl => cqs_innerfold_mono b.misbehaving_parties a ha l hl) qs' h

/-- A successful `to_phase_4` returns the state unchanged
(committee.rs line 350: `state: self.state.clone()`). -/
lemma toPhase4_ok_state_eq [DecidableEq G] (o : Ops S G C PK SK Pf)
    (st st' : IndividualState S G PK SK)
    (items : List (MembersFetchedState3 G))
    (b : Option (BroadcastPhase4 S))
    (h : toPhase4 o st items = some (.ok st', b)) : st' = st := by
  unfold toPhase4 at h
  repeat' split at h
  all_goals
    first
      | (simp only [Option.some.injEq, Prod.mk.injEq] at h
         exact (Except.ok.inj h.1).symm)
      | (simp only [Option.some.injEq, Prod.mk.injEq] at h
         exact Except.noConfusion h.1)
      | cases h

/-- C3: the claim amended.  In `to_phase_2`'s per-item processing, when both
ciphertexts decrypt to canonical scalars `(comm, shek)` and the sender index
is in range, the decrypted shares are recorded at slot `sender-1`
*unconditionally* (committee.rs line 201 precedes the check at line 207);
the complaint `(i, ShareValidityFailed, proof)` together with
`qualified_set[i-1] = 0` happens if and only if
`h^comm · g^shek ≠ Σ_k my^k · E_k`. -/
theorem c3_amended_record_always_complain_iff_check_fails [DecidableEq G]
    (o : Ops S G C PK SK Pf) (env : Environment G) (my : Nat) (sk : SK)
    (acc : Phase2Acc S G Pf) (fd : MembersFetchedState1 G C) (comm shek : S)
    (hrec : fd.indexed_shares.1 = my)
    (hc : o.dec sk fd.indexed_shares.2.1 = some comm)
    (hs : o.dec sk fd.indexed_shares.2.2 = some shek)
    (h0 : fd.sender_index ≠ 0)
    (hds : fd.sender_index - 1 < acc.ds.length)
    (hqs : fd.sender_index - 1 < acc.qs.length) :
    (o.gadd (o.gsmul env.ck_h comm) (o.gsmul o.gen shek) =
        msm o (expIterTake o (o.ofNat my) (env.threshold + 1))
          fd.committed_coeffs →
      phase2Step o env my sk acc fd =
        some (.ok { acc with
          ds := acc.ds.set (fd.sender_index - 1)
            (some (comm, shek, fd.committed_coeffs)) })) ∧
    (o.gadd (o.gsmul env.ck_h comm) (o.gsmul o.gen shek) ≠
        msm o (expIterTake o (o.ofNat my) (env.threshold + 1))
          fd.committed_coeffs →
      phase2Step o env my sk acc fd =
        some (.ok
          { qs := acc.qs.set (fd.sender_index - 1) 0
            mis := acc.mis ++
              [(fd.sender_index, DkgError.ShareValidityFailed,
                o.proofGen sk fd.indexed_shares)]
            ds := acc.ds.set (fd.sender_index - 1)
              (some (comm, shek, fd.committed_coeffs)) })) := by
  constructor
  · intro hchk
    unfold phase2Step
    rw [if_neg (fun hne => hne hrec)]
    simp only [hc, hs]
    rw [if_pos ⟨h0, hds⟩, if_neg (fun hne => hne hchk)]
  · intro hchk
    unfold phase2Step
    rw [if_neg (fun hne => hne hrec)]
    simp only [hc, hs]
    rw [if_pos ⟨h0, hds⟩, if_pos hchk, if_pos hqs]

/-- Witness for C3's amended theorem: both branches applied at concrete
inputs over `intOps` — `goodItem` (check holds, shares recorded, no
complaint) and `badItem` (check fails, shares recorded *and* complaint
recorded with slot cleared). -/
theorem c3_amended_witness :
    phase2Step intOps envEx 1 0
      { qs := [1, 1, 1], mis := [], ds := [none, none, none] } goodItem =
      some (.ok
        { qs := [1, 1, 1], mis := [],
          ds := [none, some (1, 2, [5, 0, 0]), none] }) ∧
    phase2Step intOps envEx 1 0
      { qs := [1, 1, 1], mis := [], ds := [none, none, none] } badItem =
      some (.ok
        { qs := [1, 1, 0]
          mis := [(3, DkgError.ShareValidityFailed, 3)]
          ds := [none, none, some (1, 2, [0, 0, 0])] }) := by
  constructor
  · have h := (c3_amended_record_always_complain_iff_check_fails intOps envEx 1 0
      { qs := [1, 1, 1], mis := [], ds := [none, none, none] } goodItem 1 2
      rfl rfl rfl (by decide) (by decide) (by decide)).1 (by decide)
    rw [h]
    rfl
  · have h := (c3_amended_record_always_complain_iff_check_fails intOps envEx 1 0
      { qs := [1, 1, 1], mis := [], ds := [none, none, none] } badItem 1 2
      rfl rfl rfl (by decide) (by decide) (by decide)).2 (by decide)
    rw [h]
    rfl

/-! ### C4 -/

/-- C4: for every Phase1 state and item list all addressed to `my` (with
in-range senders, the non-panicking domain), `to_phase_2` returns
`Err(MisbehaviourHigherThreshold)` together with `Some(Broadcast2)` carrying
the collected complaints when the complaint count reaches the threshold;
below the threshold it returns `Ok(Phase2)` with `Some(Broadcast2)` when at
least one complaint exists and with `None` when there are none
(committee.rs lines 236-262). -/
theorem c4_phase2_threshold_and_broadcast_cases [DecidableEq G]
    (o : Ops S G C PK SK Pf) (st : IndividualState S G PK SK)
    (env : Environment G) (items : List (MembersFetchedState1 G C))
    (hq : st.qualified_set.length = st.environment.nr_members)
    (hrec : ∀ fd ∈ items, fd.indexed_shares.1 = st.index)
    (hsend : ∀ fd ∈ items, 1 ≤ fd.sender_index ∧
      fd.sender_index ≤ st.environment.nr_members) :
    ∃ acc : Phase2Acc S G Pf,
      phase2Loop o env st.index st.communication_sk items
        { qs := st.qualified_set, mis := [],
          ds := List.replicate st.environment.nr_members none } =
        some (.ok acc) ∧
      (env.threshold ≤ acc.mis.length →
        toPhase2 o st env items =
          some (.error .MisbehaviourHigherThreshold,
            some { misbehaving_parties := acc.mis })) ∧
      (acc.mis.length < env.threshold → acc.mis ≠ [] →
        toPhase2 o st env items =
          some (.ok { st with indexed_received_shares := some acc.ds,
                              qualified_set := acc.qs },
            some { misbehaving_parties := acc.mis })) ∧
      (acc.mis.length < env.threshold → acc.mis = [] →
        toPhase2 o st env items =
          some (.ok { st with indexed_received_shares := some acc.ds,
                              qualified_set := acc.qs }, none)) := by
  obtain ⟨acc, hloop, _, _, _⟩ :=
    phase2Loop_ok o env st.index st.communication_sk items
      { qs := st.qualified_set, mis := [],
        ds := List.replicate st.environment.nr_members none }
      hrec
      (fun fd hfd => by
        obtain ⟨h1, h2⟩ := hsend fd hfd
        refine ⟨by omega, by simp; omega, by simp [hq]; omega⟩)
  have heq := toPhase2_eq_of_loop o st env items acc hloop
  refine ⟨acc, hloop, ?_, ?_, ?_⟩
  · intro hle
    rw [heq, if_pos hle]
  · intro hlt hne
    rw [heq, if_neg (by omega)]
    have : acc.mis.isEmpty = false := by
      cases hmis : acc.mis with
      | nil => exact absurd hmis hne
      | cons a l => rfl
    rw [this]
    rfl
  · intro hlt hnil
    rw [heq, if_neg (by omega), hnil]
    rfl

/-- Witness for C4: member 1 of `envEx` processes `goodItem` and `badItem`;
one complaint (below the threshold 2), so the transition returns `Ok` with
`Some(Broadcast2)` carrying the single complaint against sender 3. -/
theorem c4_witness :
    toPhase2 intOps stEx envEx [goodItem, badItem] =
      some (.ok { stEx with
                  indexed_received_shares :=
                    some [none, some (1, 2, [5, 0, 0]), some (1, 2, [0, 0, 0])]
                  qualified_set := [1, 1, 0] },
        some { misbehaving_parties := [(3, DkgError.ShareValidityFailed, 3)] }) := by
  obtain ⟨acc, hloop, _, hcase, _⟩ :=
    c4_phase2_threshold_and_broadcast_cases intOps stEx envEx [goodItem, badItem]
      (by decide)
      (by intro fd hfd; fin_cases hfd <;> rfl)
      (by intro fd hfd; fin_cases hfd <;> exact ⟨by decide, by decide⟩)
  have hacc : acc = { qs := [1, 1, 0],
                      mis := [(3, DkgError.ShareValidityFailed, 3)],
                      ds := [none, some (1, 2, [5, 0, 0]), some (1, 2, [0, 0, 0])] } := by
    have : phase2Loop intOps envEx stEx.index stEx.communication_sk
        [goodItem, badItem]
        { qs := stEx.qualified_set, mis := [],
          ds := List.replicate stEx.environment.nr_members none } =
        some (.ok { qs := [1, 1, 0],
                    mis := [(3, DkgError.ShareValidityFailed, 3)],
                    ds := [none, some (1, 2, [5, 0, 0]), some (1, 2, [0, 0, 0])] }) := by
      rfl
    rw [this] at hloop
    injection hloop with hloop
    exact (Except.ok.inj hloop).symm
  subst hacc
  exact hcase (by decide) (by decide)

/-! ### C10 -/

/-- C10: `to_phase_2` indexes its per-sender vectors at `sender_index - 1`
with no bounds check.  On any input (all addressed to `my`, matching the
preceding claims' framing) containing an item whose `sender_index` is `0` or
exceeds `n`, the transition panics — arithmetic underflow of
`sender_index - 1` or out-of-bounds indexing at committee.rs lines 201/213/227
— instead of returning a typed error; and when every `sender_index` lies in
`[1..n]` no such panic occurs. -/
theorem c10_phase2_panics_iff_sender_out_of_range [DecidableEq G]
    (o : Ops S G C PK SK Pf) (st : IndividualState S G PK SK)
    (env : Environment G) (items : List (MembersFetchedState1 G C))
    (hq : st.qualified_set.length = st.environment.nr_members)
    (hrec : ∀ fd ∈ items, fd.indexed_shares.1 = st.index) :
    ((∃ fd ∈ items, fd.sender_index = 0 ∨
        st.environment.nr_members < fd.sender_index) →
      toPhase2 o st env items = none) ∧
    ((∀ fd ∈ items, 1 ≤ fd.sender_index ∧
        fd.sender_index ≤ st.environment.nr_members) →
      toPhase2 o st env items ≠ none) := by
  constructor
  · intro hbad
    have hloop := phase2Loop_none o env st.index st.communication_sk
      st.environment.nr_members items
      { qs := st.qualified_set, mis := [],
        ds := List.replicate st.environment.nr_members none }
      hrec (by simp) hq hbad
    simp only [toPhase2]
    rw [hloop]
  · intro hsend
    obtain ⟨acc, hloop, _, _, _⟩ :=
      phase2Loop_ok o env st.index st.communication_sk items
        { qs := st.qualified_set, mis := [],
          ds := List.replicate st.environment.nr_members none }
        hrec
        (fun fd hfd => by
          obtain ⟨h1, h2⟩ := hsend fd hfd
          refine ⟨by omega, by simp; omega, by simp [hq]; omega⟩)
    rw [toPhase2_eq_of_loop o st env items acc hloop]
    split
    · exact Option.noConfusion
    · exact Option.noConfusion

/-- Witness for C10: with `envEx` (`n = 3`), an item from "sender 0" makes
`to_phase_2` panic, as does one from sender 4; the in-range run
`[goodItem, badItem]` does not panic. -/
theorem c10_witness :
    toPhase2 intOps stEx envEx
      [{ sender_index := 0, indexed_shares := (1, 1, 2),
         committed_coeffs := [0, 0, 0] }] = none ∧
    toPhase2 intOps stEx envEx
      [{ sender_index := 4, indexed_shares := (1, 1, 2),
         committed_coeffs := [0, 0, 0] }] = none ∧
    toPhase2 intOps stEx envEx [goodItem, badItem] ≠ none := by
  refine ⟨?_, ?_, ?_⟩
  · exact (c10_phase2_panics_iff_sender_out_of_range intOps stEx envEx _
      (by decide) (by intro fd hfd; fin_cases hfd <;> rfl)).1
      ⟨_, List.mem_singleton.2 rfl, Or.inl rfl⟩
  · exact (c10_phase2_panics_iff_sender_out_of_range intOps stEx envEx _
      (by decide) (by intro fd hfd; fin_cases hfd <;> rfl)).1
      ⟨_, List.mem_singleton.2 rfl, Or.inr (by decide)⟩
  · exact (c10_phase2_panics_iff_sender_out_of_range intOps stEx envEx _
      (by decide) (by intro fd hfd; fin_cases hfd <;> rfl)).2
      (by intro fd hfd; fin_cases hfd <;> exact ⟨by decide, by decide⟩)

/-! ### C7 -/

/-- C7: disqualification is monotone.  Whenever a transition succeeds, a
member whose `qualified_set` entry is `0` beforehand still has `0`
afterwards: `to_phase_2` and `to_phase_3` (via `compute_qualified_set`) only
clear entries, and `to_phase_4` returns the state — hence the qualified set —
unchanged. -/
theorem c7_disqualification_is_monotone :
    (∀ (o : Ops S G C PK SK Pf) [DecidableEq G]
       (st st' : IndividualState S G PK SK) (env : Environment G)
       (items : List (MembersFetchedState1 G C))
       (b : Option (BroadcastPhase2 Pf)),
       toPhase2 o st env items = some (.ok st', b) →
       ∀ j, st.qualified_set.get? j = some 0 →
         st'.qualified_set.get? j = some 0) ∧
    (∀ (st st' : IndividualState S G PK SK)
       (bs : List (BroadcastPhase2 Pf)) (b : Option (BroadcastPhase3 G)),
       toPhase3 st bs = some (.ok st', b) →
       ∀ j, st.qualified_set.get? j = some 0 →
         st'.qualified_set.get? j = some 0) ∧
    (∀ (o : Ops S G C PK SK Pf) [DecidableEq G]
       (st st' : IndividualState S G PK SK)
       (items : List (MembersFetchedState3 G))
       (b : Option (BroadcastPhase4 S)),
       toPhase4 o st items = some (.ok st', b) →
       st'.qualified_set = st.qualified_set) := by
  refine ⟨?_, ?_, ?_⟩
  · intro o inst st st' env items b h j hj
    simp only [toPhase2] at h
    split at h
    · cases h
    · simp only [Option.some.injEq, Prod.mk.injEq] at h
      exact Except.noConfusion h.1
    · rename_i acc heq
      split at h
      · simp only [Option.some.injEq, Prod.mk.injEq] at h
        exact Except.noConfusion h.1
      · simp only [Option.some.injEq, Prod.mk.injEq] at h
        have hst : st' = { st with indexed_received_shares := some acc.ds,
                                   qualified_set := acc.qs } :=
          (Except.ok.inj h.1).symm
        subst hst
        exact phase2Loop_ok_mono o env st.index st.communication_sk
          items _ acc heq j hj
  · intro st st' bs b h j hj
    unfold toPhase3 at h
    split at h
    · cases h
    · rename_i qs heq
      split at h
      · simp only [Option.some.injEq, Prod.mk.injEq] at h
        exact Except.noConfusion h.1
      · simp only [Option.some.injEq, Prod.mk.injEq] at h
        have hst : st' = { st with qualified_set := qs } :=
          (Except.ok.inj h.1).symm
        subst hst
        exact computeQualifiedSet_mono bs (some st.qualified_set)
          (fun l hl => by
            injection hl with hl
            subst hl
            exact hj) qs heq
  · intro o inst st st' items b h
    rw [toPhase4_ok_state_eq o st st' items b h]

/-- A state with member 2's slot 1 disqualified, for the C7 witness. -/
def stQ : IndividualState Int Int Int Int :=
  { stEx with qualified_set := [0, 1, 1] }

/-- `stQ` after a phase-2 run over `[goodItem]`. -/
def stQ2 : IndividualState Int Int Int Int :=
  { stQ with indexed_received_shares := some [none, some (1, 2, [5, 0, 0]), none] }

/-- `stQ` with recorded shares, ready for phase 4. -/
def stQ4 : IndividualState Int Int Int Int :=
  { stQ with indexed_received_shares := some [none, some (7, 8, [5, 0, 0]), none] }

/-- A round-3 item from sender 2 whose commitments match `stQ4`'s recorded
share (`g·8 = 8 = Σ my^k·A_k`). -/
def fc2W : MembersFetchedState3 Int :=
  { sender_index := 2, committed_coefficients := [8, 0, 0] }

/-- Witness for C7: all three parts applied at concrete runs over `intOps` —
a `to_phase_2` run, a `to_phase_3` run and a `to_phase_4` run, each keeping
slot 1 (member 1's view of member 1) disqualified. -/
theorem c7_witness :
    stQ2.qualified_set.get? 0 = some 0 ∧
    stQ.qualified_set.get? 0 = some 0 ∧
    stQ4.qualified_set = stQ4.qualified_set := by
  have hC := @c7_disqualification_is_monotone Int Int Int Int Int Int
  refine ⟨?_, ?_, ?_⟩
  · exact hC.1 intOps stQ stQ2 envEx [goodItem] none (by rfl) 0 (by rfl)
  · exact hC.2.1 stQ stQ []
      (some { committed_coefficients := [10, 11, 12] }) (by rfl) 0 (by rfl)
  · exact hC.2.2 intOps stQ4 stQ4 [fc2W] none (by rfl)

/-! ### C5 -/

/-- If `f` is defined on every index below `n`, `filterMap f (range n)` keeps
all `n` entries. -/
lemma length_filterMap_range_all {α : Type} (f : Nat → Option α) :
    ∀ n, (∀ i, i < n → (f i).isSome) →
    ((List.range n).filterMap f).length = n := by
  intro n
  induction n with
  | zero => intro _; rfl
  | succ n ih =>
      intro hall
      obtain ⟨a, ha⟩ := Option.isSome_iff_exists.1 (hall n (by omega))
      rw [List.range_succ, List.filterMap_append, List.length_append,
        ih (fun i hi => hall i (by omega))]
      have hone : List.filterMap f [n] = [a] := by simp [ha]
      rw [hone]
      rfl

/-- If `f` is undefined at exactly one index `k < n`, `filterMap f (range n)`
has `n - 1` entries. -/
lemma length_filterMap_range_except {α : Type} (f : Nat → Option α) :
    ∀ n k, k < n → (∀ i, i < n → i ≠ k → (f i).isSome) → f k = none →
    ((List.range n).filterMap f).length = n - 1 := by
  intro n
  induction n with
  | zero => intro k hk; omega
  | succ n ih =>
      intro k hk hsome hnone
      rw [List.range_succ, List.filterMap_append, List.length_append]
      rcases eq_or_ne k n with heq | hne
      · have hfn : f n = none := heq ▸ hnone
        rw [length_filterMap_range_all f n
          (fun i hi => hsome i (by omega) (by omega))]
        have hnil : List.filterMap f [n] = [] := by simp [hfn]
        rw [hnil]
        simp
      · have hkn : k < n := by omega
        obtain ⟨a, ha⟩ := Option.isSome_iff_exists.1
          (hsome n (by omega) (Ne.symm hne))
        rw [ih k hkn (fun i hi hik => hsome i (by omega) hik) hnone]
        have hone : List.filterMap f [n] = [a] := by simp [ha]
        rw [hone]
        simp only [List.length_singleton]
        omega

/-- C5: `init` (committee.rs lines 91-159).  With `|committee_pks| = n`,
`1 ≤ my ≤ n` and the two degree-`t` polynomials: the broadcast commitments
are `Eᵢ = h^{bᵢ} + g^{aᵢ}` (additive notation, `bᵢ` from `p_comm`, `aᵢ` from
`p_shek`), the state keeps `Aᵢ = g^{aᵢ}`, and `encrypted_shares` has exactly
`n - 1` entries — one `(j, HybridEnc(pkⱼ, p_comm(j)), HybridEnc(pkⱼ,
p_shek(j)))` for each `j ∈ [1..n] \ {my}`, in increasing order of `j`. -/
theorem c5_init_broadcast_shape (o : Ops S G C PK SK Pf)
    (env : Environment G) (sk : SK) (pks : List PK) (pcomm pshek : List S)
    (my : Nat)
    (hlen : pks.length = env.nr_members)
    (hmy1 : 1 ≤ my) (hmyn : my ≤ env.nr_members)
    (hpc : pcomm.length = env.threshold + 1)
    (hps : pshek.length = env.threshold + 1) :
    ∃ (st : IndividualState S G PK SK) (b1 : BroadcastPhase1 G C),
      dkgInit o env sk pks pcomm pshek my = some (st, b1) ∧
      st.committed_coefficients = pshek.map (fun a => o.gsmul o.gen a) ∧
      b1.committed_coefficients =
        List.zipWith
          (fun a b => o.gadd (o.gsmul env.ck_h b) (o.gsmul o.gen a))
          pshek pcomm ∧
      b1.encrypted_shares.length = env.nr_members - 1 ∧
      b1.encrypted_shares.Pairwise (fun e e' => e.1 < e'.1) ∧
      (∀ j pk, pks.get? (j - 1) = some pk → 1 ≤ j → j ≤ env.nr_members →
        j ≠ my →
        (j, o.hybridEnc pk (polyEval o pcomm (o.ofNat j)),
          o.hybridEnc pk (polyEval o pshek (o.ofNat j))) ∈
          b1.encrypted_shares) ∧
      (∀ e ∈ b1.encrypted_shares, 1 ≤ e.1 ∧ e.1 ≤ env.nr_members ∧
        e.1 ≠ my ∧
        ∃ pk, pks.get? (e.1 - 1) = some pk ∧
          e = (e.1, o.hybridEnc pk (polyEval o pcomm (o.ofNat e.1)),
            o.hybridEnc pk (polyEval o pshek (o.ofNat e.1)))) := by
  have hzl : pshek.length ≤ pcomm.length := by omega
  refine
    ⟨{ index := my
       environment := env
       communication_sk := sk
       committed_coefficients := (pshek.zip pcomm).map (fun ab => o.gsmul o.gen ab.1)
       final_share := none
       public_share := none
       indexed_received_shares := none
       indexed_committed_shares := none
       qualified_set := List.replicate env.nr_members 1 },
     { committed_coefficients :=
         (pshek.zip pcomm).map
           (fun ab => o.gadd (o.gsmul env.ck_h ab.2) (o.gsmul o.gen ab.1))
       encrypted_shares :=
         (List.range env.nr_members).filterMap (fun i =>
           if i = my - 1 then none
           else
             match pks.get? i with
             | some pk =>
                 some (i + 1,
                   o.hybridEnc pk (polyEval o pcomm (o.ofNat (i + 1))),
                   o.hybridEnc pk (polyEval o pshek (o.ofNat (i + 1))))
             | none => none) },
     ?_, ?_, ?_, ?_, ?_, ?_, ?_⟩
  · unfold dkgInit
    rw [if_neg (by simp [hlen]), if_neg (not_not.2 hmyn), if_neg (by omega)]
  · show (pshek.zip pcomm).map (fun ab => o.gsmul o.gen ab.1) = _
    conv_rhs => rw [← List.map_fst_zip pshek pcomm hzl]
    rw [List.map_map]
    rfl
  · show (pshek.zip pcomm).map _ = _
    rw [List.zip_eq_zipWith, List.map_zipWith]
  · exact length_filterMap_range_except _ env.nr_members (my - 1) (by omega)
      (fun i hi hine => by
        have : i < pks.length := by omega
        rw [List.get?_eq_get this]
        simp [hine])
      (by simp)
  · refine List.Pairwise.filterMap _ ?_ (List.pairwise_lt_range _)
    intro a a' haa' b hb b' hb'
    have h1 : b.1 = a + 1 := by
      simp only [Option.mem_def] at hb
      split at hb
      · cases hb
      · split at hb
        · injection hb with hb
          subst hb
          rfl
        · cases hb
    have h2 : b'.1 = a' + 1 := by
      simp only [Option.mem_def] at hb'
      split at hb'
      · cases hb'
      · split at hb'
        · injection hb' with hb'
          subst hb'
          rfl
        · cases hb'
    omega
  · intro j pk hpk hj1 hjn hjmy
    simp only [List.mem_filterMap, List.mem_range]
    refine ⟨j - 1, by omega, ?_⟩
    rw [if_neg (by omega), hpk]
    have hj : j - 1 + 1 = j := by omega
    rw [hj]
  · intro e he
    simp only [List.mem_filterMap, List.mem_range] at he
    obtain ⟨i, hi, hfi⟩ := he
    split at hfi
    · cases hfi
    · split at hfi
      · rename_i hne pk hpk
        injection hfi with hfi
        subst hfi
        refine ⟨by omega, by omega, by omega, pk, ?_, rfl⟩
        simpa using hpk
      · cases hfi

/-! ### C6 -/

/-- `getD` of a zero-filled replicate is `0` at every index. -/
lemma getD_replicate_zero (n j : Nat) :
    (List.replicate n (0 : Nat)).getD j 0 = 0 := by
  rcases Nat.lt_or_ge j n with h | h
  · rw [List.getD_eq_get?,
      List.get?_eq_get (by simp [h] : j < (List.replicate n (0 : Nat)).length)]
    simp
  · rw [List.getD_eq_get?,
      List.get?_eq_none.2 (by simp [h] : (List.replicate n (0 : Nat)).length ≤ j)]
    rfl

/-- `getD` after `set` at the written index. -/
lemma getD_set_self (l : List Nat) (k v : Nat) (h : k < l.length) :
    (l.set k v).getD k 0 = v := by
  rw [List.getD_eq_get?, List.get?_set_eq_of_lt _ h]
  rfl

/-- `getD` after `set` at a different index. -/
lemma getD_set_ne (l : List Nat) (k j v : Nat) (h : k ≠ j) :
    (l.set k v).getD j 0 = l.getD j 0 := by
  rw [List.getD_eq_get?, List.get?_set_ne _ _ h, List.getD_eq_get?]

/-- Specification helper (used only in theorem statements): the Broadcast4
disclosure that one fetched round-3 item produces in `to_phase_4` — present
iff the sender is qualified and its round-3 commitments contradict the
recorded share. -/
def phase4MisOf [DecidableEq G] (o : Ops S G C PK SK Pf)
    (st : IndividualState S G PK SK) (rs : List (Option (S × S × List G)))
    (fc : MembersFetchedState3 G) : Option (Nat × S × S) :=
  if st.qualified_set.getD (fc.sender_index - 1) 0 ≠ 0 then
    match rs.getD (fc.sender_index - 1) none with
    | some ish =>
        if o.gsmul o.gen ish.2.1 ≠
            msm o (expIterTake o (o.ofNat st.index)
              (st.environment.threshold + 1)) fc.committed_coefficients
        then some (fc.sender_index, ish.1, ish.2.1)
        else none
    | none => none
  else none

/-- Specification helper: a fetched round-3 item passes the check — the
sender is qualified and `g^{s}` matches the multiscalar combination of its
round-3 commitments. -/
def phase4Passes [DecidableEq G] (o : Ops S G C PK SK Pf)
    (st : IndividualState S G PK SK) (rs : List (Option (S × S × List G)))
    (fc : MembersFetchedState3 G) : Prop :=
  st.qualified_set.getD (fc.sender_index - 1) 0 ≠ 0 ∧
  ∃ ish, rs.getD (fc.sender_index - 1) none = some ish ∧
    o.gsmul o.gen ish.2.1 =
      msm o (expIterTake o (o.ofNat st.index)
        (st.environment.threshold + 1)) fc.committed_coefficients

/-- Behaviour of one `to_phase_4` loop iteration on an in-range item. -/
lemma phase4Step_spec [DecidableEq G] (o : Ops S G C PK SK Pf)
    (st : IndividualState S G PK SK) (rs : List (Option (S × S × List G)))
    (acc : Phase4Acc S) (fc : MembersFetchedState3 G)
    (h1 : 1 ≤ fc.sender_index)
    (hq : fc.sender_index - 1 < st.qualified_set.length)
    (hrsb : fc.sender_index - 1 < rs.length)
    (hhl : fc.sender_index - 1 < acc.honest.length)
    (hishare : st.qualified_set.getD (fc.sender_index - 1) 0 ≠ 0 →
      (rs.getD (fc.sender_index - 1) none).isSome) :
    ∃ acc', phase4Step o st rs acc fc = some acc' ∧
      acc'.mis = acc.mis ++ (phase4MisOf o st rs fc).toList ∧
      (phase4Passes o st rs fc →
        acc'.honest = acc.honest.set (fc.sender_index - 1)
          ((acc.honest.getD (fc.sender_index - 1) 0).lor 1)) ∧
      (¬ phase4Passes o st rs fc → acc'.honest = acc.honest) := by
  unfold phase4Step phase4MisOf phase4Passes
  rw [if_pos (⟨by omega, hq⟩ :
    fc.sender_index ≠ 0 ∧ fc.sender_index - 1 < st.qualified_set.length)]
  by_cases hqual : st.qualified_set.getD (fc.sender_index - 1) 0 ≠ 0
  · rw [if_pos hqual, if_pos hrsb, if_pos hqual]
    obtain ⟨ish, hish⟩ := Option.isSome_iff_exists.1 (hishare hqual)
    simp only [hish]
    by_cases hchk : o.gsmul o.gen ish.2.1 ≠
        msm o (expIterTake o (o.ofNat st.index)
          (st.environment.threshold + 1)) fc.committed_coefficients
    · rw [if_pos hchk, if_pos hchk]
      refine ⟨_, rfl, rfl, ?_, fun _ => rfl⟩
      intro hpass
      obtain ⟨_, ish', hish', heq⟩ := hpass
      injection hish' with hish'
      subst hish'
      exact absurd heq hchk
    · rw [if_neg hchk, if_neg hchk, if_pos hhl]
      refine ⟨_, rfl, by simp, fun _ => rfl, ?_⟩
      intro hnpass
      exact absurd ⟨hqual, ish, rfl, not_not.1 hchk⟩ hnpass
  · rw [if_neg hqual, if_neg hqual]
    refine ⟨acc, rfl, by simp, ?_, fun _ => rfl⟩
    intro hpass
    exact absurd hpass.1 hqual

/-- Behaviour of the whole `to_phase_4` loop: it completes on in-range
items, collects exactly the disclosures of qualified mismatching senders in
input order, and marks honest exactly the slots of passing items. -/
lemma phase4Loop_spec [DecidableEq G] (o : Ops S G C PK SK Pf)
    (st : IndividualState S G PK SK) (rs : List (Option (S × S × List G))) :
    ∀ (items : List (MembersFetchedState3 G)) (acc : Phase4Acc S),
    (∀ fc ∈ items, 1 ≤ fc.sender_index ∧
      fc.sender_index - 1 < st.qualified_set.length ∧
      fc.sender_index - 1 < rs.length ∧
      fc.sender_index - 1 < acc.honest.length) →
    (∀ fc ∈ items, st.qualified_set.getD (fc.sender_index - 1) 0 ≠ 0 →
      (rs.getD (fc.sender_index - 1) none).isSome) →
    (∀ j, acc.honest.getD j 0 = 0 ∨ acc.honest.getD j 0 = 1) →
    ∃ acc', phase4Loop o st rs items acc = some acc' ∧
      acc'.honest.length = acc.honest.length ∧
      acc'.mis = acc.mis ++ items.filterMap (phase4MisOf o st rs) ∧
      (∀ j, acc'.honest.getD j 0 = 0 ∨ acc'.honest.getD j 0 = 1) ∧
      (∀ j, (∃ fc ∈ items, fc.sender_index - 1 = j ∧
        phase4Passes o st rs fc) → acc'.honest.getD j 0 = 1) ∧
      (∀ j, ¬ (∃ fc ∈ items, fc.sender_index - 1 = j ∧
        phase4Passes o st rs fc) →
        acc'.honest.getD j 0 = acc.honest.getD j 0)
  | [], acc => by
      intro _ _ hbit
      refine ⟨acc, rfl, rfl, by simp, hbit, ?_, ?_⟩
      · intro j hex
        obtain ⟨fc, hfc, _⟩ := hex
        cases hfc
      · intro j _
        rfl
  | fc :: rest, acc => by
      intro hrange hishare hbit
      obtain ⟨h1, hq, hrsb, hhl⟩ := hrange fc (List.mem_cons_self fc rest)
      obtain ⟨acc1, hstep, hmis1, hpass1, hnpass1⟩ :=
        phase4Step_spec o st rs acc fc h1 hq hrsb hhl
          (hishare fc (List.mem_cons_self fc rest))
      have hlen1 : acc1.honest.length = acc.honest.length := by
        by_cases hpass : phase4Passes o st rs fc
        · rw [hpass1 hpass, List.length_set]
        · rw [hnpass1 hpass]
      have hbit1 : ∀ j, acc1.honest.getD j 0 = 0 ∨ acc1.honest.getD j 0 = 1 := by
        intro j
        by_cases hpass : phase4Passes o st rs fc
        · rw [hpass1 hpass]
          rcases eq_or_ne (fc.sender_index - 1) j with rfl | hne
          · rw [getD_set_self _ _ _ hhl]
            rcases hbit (fc.sender_index - 1) with h | h
            · rw [h]
              exact Or.inr (by decide)
            · rw [h]
              exact Or.inr (by decide)
          · rw [getD_set_ne _ _ _ _ hne]
            exact hbit j
        · rw [hnpass1 hpass]
          exact hbit j
      obtain ⟨acc', hloop, hlen2, hmis2, hbit2, hpos2, hneg2⟩ :=
        phase4Loop_spec o st rs rest acc1
          (fun x hx => by
            obtain ⟨a, b, c, d⟩ := hrange x (List.mem_cons_of_mem fc hx)
            exact ⟨a, b, c, by omega⟩)
          (fun x hx => hishare x (List.mem_cons_of_mem fc hx))
          hbit1
      refine ⟨acc', ?_, by omega, ?_, hbit2, ?_, ?_⟩
      · unfold phase4Loop
        rw [hstep]
        exact hloop
      · rw [hmis2, hmis1, List.filterMap_cons]
        cases hmof : phase4MisOf o st rs fc with
        | none => simp [hmof]
        | some x => simp [hmof]
      · intro j hex
        obtain ⟨fc', hfc', hj, hpassfc'⟩ := hex
        rcases List.mem_cons.1 hfc' with rfl | hmem
        · by_cases hrest : ∃ x ∈ rest, x.sender_index - 1 = j ∧
              phase4Passes o st rs x
          · exact hpos2 j hrest
          · rw [hneg2 j hrest, hpass1 hpassfc', hj,
              getD_set_self _ _ _ (by omega)]
            rcases hbit j with h | h
            · rw [h]
              decide
            · rw [h]
              decide
        · exact hpos2 j ⟨fc', hmem, hj, hpassfc'⟩
      · intro j hnex
        have hrest : ¬ ∃ x ∈ rest, x.sender_index - 1 = j ∧
            phase4Passes o st rs x := by
          intro hex
          obtain ⟨x, hx, hj, hp⟩ := hex
          exact hnex ⟨x, List.mem_cons_of_mem fc hx, hj, hp⟩
        rw [hneg2 j hrest]
        by_cases hpass : phase4Passes o st rs fc
        · have hne : fc.sender_index - 1 ≠ j := by
            intro hj
            exact hnex ⟨fc, List.mem_cons_self fc rest, hj, hpass⟩
          rw [hpass1 hpass, getD_set_ne _ _ _ _ hne]
        · rw [hnpass1 hpass]

/-- C6: `to_phase_4` (committee.rs lines 302-353) on in-range inputs.
Senders marked `0` in `qualified_set` are skipped (they neither become
honest nor get disclosed); the member itself is always honest; a qualified
fetched sender is honest iff `g^{s}` equals the multiscalar combination of
its round-3 coefficients, and a qualified mismatching sender is disclosed as
`(sender_index, t, s)` in Broadcast4; the transition errors with
`MisbehaviourHigherThreshold` iff the honest count is below the threshold,
returning the prepared Broadcast4 (when non-empty) in both cases. -/
theorem c6_phase4_honesty_and_threshold [DecidableEq G]
    (o : Ops S G C PK SK Pf) (st : IndividualState S G PK SK)
    (items : List (MembersFetchedState3 G))
    (rs : List (Option (S × S × List G)))
    (hrs : st.indexed_received_shares = some rs)
    (hmy1 : 1 ≤ st.index) (hmyn : st.index ≤ st.environment.nr_members)
    (hqlen : st.qualified_set.length = st.environment.nr_members)
    (hrslen : rs.length = st.environment.nr_members)
    (hsend : ∀ fc ∈ items, 1 ≤ fc.sender_index ∧
      fc.sender_index ≤ st.environment.nr_members)
    (hshare : ∀ fc ∈ items,
      st.qualified_set.getD (fc.sender_index - 1) 0 ≠ 0 →
      (rs.getD (fc.sender_index - 1) none).isSome) :
    ∃ acc : Phase4Acc S,
      phase4Loop o st rs items
        { honest := (List.replicate st.environment.nr_members 0).set
            (st.index - 1) 1
          mis := [] } = some acc ∧
      acc.honest.length = st.environment.nr_members ∧
      (∀ j, acc.honest.getD j 0 = 0 ∨ acc.honest.getD j 0 = 1) ∧
      (∀ j, acc.honest.getD j 0 = 1 ↔
        (j = st.index - 1 ∨ ∃ fc ∈ items, fc.sender_index - 1 = j ∧
          phase4Passes o st rs fc)) ∧
      acc.mis = items.filterMap (phase4MisOf o st rs) ∧
      toPhase4 o st items =
        (if acc.honest.sum < st.environment.threshold then
          some (.error .MisbehaviourHigherThreshold,
            if acc.mis.isEmpty then none
            else some { misbehaving_parties := acc.mis })
        else
          some (.ok st,
            if acc.mis.isEmpty then none
            else some { misbehaving_parties := acc.mis })) := by
  have hn1 : 1 ≤ st.environment.nr_members := by omega
  have hmylt : st.index - 1 < (List.replicate st.environment.nr_members (0 : Nat)).length := by
    simp
    omega
  have hbit0 : ∀ j, ((List.replicate st.environment.nr_members 0).set
      (st.index - 1) 1).getD j 0 = 0 ∨
      ((List.replicate st.environment.nr_members 0).set
        (st.index - 1) 1).getD j 0 = 1 := by
    intro j
    rcases eq_or_ne (st.index - 1) j with rfl | hne
    · rw [getD_set_self _ _ _ hmylt]
      exact Or.inr rfl
    · rw [getD_set_ne _ _ _ _ hne, getD_replicate_zero]
      exact Or.inl rfl
  obtain ⟨acc, hloop, hlen, hmis, hbit, hpos, hneg⟩ :=
    phase4Loop_spec o st rs items
      { honest := (List.replicate st.environment.nr_members 0).set
          (st.index - 1) 1
        mis := [] }
      (fun fc hfc => by
        obtain ⟨a, b⟩ := hsend fc hfc
        refine ⟨a, by omega, by omega, ?_⟩
        simp
        omega)
      hshare hbit0
  refine ⟨acc, hloop, by simpa using hlen, hbit, ?_, by simpa using hmis, ?_⟩
  · intro j
    constructor
    · intro hone
      by_cases hex : ∃ fc ∈ items, fc.sender_index - 1 = j ∧
          phase4Passes o st rs fc
      · exact Or.inr hex
      · left
        rw [hneg j hex] at hone
        by_contra hne
        rw [getD_set_ne _ _ _ _ (Ne.symm hne), getD_replicate_zero] at hone
        cases hone
    · intro hor
      rcases hor with rfl | hex
      · by_cases hex : ∃ fc ∈ items, fc.sender_index - 1 = st.index - 1 ∧
            phase4Passes o st rs fc
        · exact hpos _ hex
        · rw [hneg _ hex, getD_set_self _ _ _ hmylt]
      · exact hpos j hex
  · have hz : (List.replicate st.environment.nr_members (0 : Nat)).getD
        (st.index - 1) 0 = 0 := getD_replicate_zero _ _
    unfold toPhase4
    rw [if_pos (⟨by omega, hmylt⟩ : st.index ≠ 0 ∧
      st.index - 1 < (List.replicate st.environment.nr_members (0 : Nat)).length)]
    simp only [hrs]
    rw [hz]
    have hone : Nat.lor 0 1 = 1 := by decide
    rw [hone, hloop]

/-- Recorded shares for the C6 witness: nothing from self (slot 0),
`(7, 8, E₂)` from sender 2 and `(1, 2, E₃)` from sender 3. -/
def rsEx : List (Option (Int × Int × List Int)) :=
  [none, some (7, 8, [5, 0, 0]), some (1, 2, [0, 0, 0])]

/-- A Phase3 state of member 1 holding `rsEx`. -/
def stP4 : IndividualState Int Int Int Int :=
  { stEx with indexed_received_shares := some rsEx }

/-- A round-3 item from sender 3 whose commitments contradict the recorded
share (`g·2 = 2 ≠ 5`). -/
def fcBad : MembersFetchedState3 Int :=
  { sender_index := 3, committed_coefficients := [5, 0, 0] }

/-- Witness for C6: member 1 processes a passing item from sender 2 and a
mismatching one from sender 3; the honest bitmap is `[1, 1, 0]` (self plus
sender 2), its sum 2 reaches the threshold, so the transition returns `Ok`
and disclosed `(3, t₃ = 1, s₃ = 2)` in Broadcast4. -/
theorem c6_witness :
    toPhase4 intOps stP4 [fc2W, fcBad] =
      some (.ok stP4, some { misbehaving_parties := [(3, 1, 2)] }) := by
  obtain ⟨acc, hloop, _, _, _, _, heq⟩ :=
    c6_phase4_honesty_and_threshold intOps stP4 [fc2W, fcBad] rsEx rfl
      (by decide) (by decide) (by decide) (by decide)
      (by intro fc hfc; fin_cases hfc <;> exact ⟨by decide, by decide⟩)
      (by intro fc hfc; fin_cases hfc <;> (intro h; rfl))
  have h2 : phase4Loop intOps stP4 rsEx [fc2W, fcBad]
      { honest := (List.replicate stP4.environment.nr_members 0).set
          (stP4.index - 1) 1
        mis := [] } =
      some { honest := [1, 1, 0], mis := [(3, 1, 2)] } := by rfl
  rw [h2] at hloop
  injection hloop with hloop
  rw [heq, ← hloop]
  rfl

/-- Witness for C5: member 1 of `envEx` deals with `p_comm = 1 + 2x + 3x²`
and `p_shek = 4 + 5x + 6x²` to three members with keys `[100, 200, 300]`;
the theorem applies and the broadcast carries `n - 1 = 2` encrypted-share
entries. -/
theorem c5_witness :
    ∃ (st : IndividualState Int Int Int Int)
      (b1 : BroadcastPhase1 Int Int),
      dkgInit intOps envEx 0 [100, 200, 300] [1, 2, 3] [4, 5, 6] 1 =
        some (st, b1) ∧
      b1.encrypted_shares.length = 2 ∧
      st.committed_coefficients = [4, 5, 6] := by
  obtain ⟨st, b1, h1, h2, _, h4, _, _, _⟩ :=
    c5_init_broadcast_shape intOps envEx 0 [100, 200, 300] [1, 2, 3]
      [4, 5, 6] 1 (by decide) (by decide) (by decide) (by decide) (by decide)
  refine ⟨st, b1, h1, h4, ?_⟩
  rw [h2]
  rfl
